import Mathlib

/-!
# UltraChat streaming/protocol/audio layer — a verification development

This file gives a shallow embedding of the client-side streaming layer of
UltraChat and proves (or refutes) the stated properties of:

* the SSE frame decoder (`ApiClient.stream`, `frontend/src/lib/api.js`);
* the non-OK HTTP error-body interpretation (`ApiClient.request` and the
  pre-stream check of `ApiClient.stream`);
* the SSE event interpreter (`processStream`, `frontend/src/components/VoiceMode.jsx`),
  including tool-thinking buffering, tool-result correlation, the conversation
  id and terminal error propagation;
* the voice session audio path (`VoiceChatSession`): PCM16 encode/decode and
  the gapless playback scheduler.

JavaScript strings are embedded as `List Char` (`JStr`) where the code
manipulates them character-wise (`split`, `trim`, `slice`), and as Lean
`String` where only equality, concatenation and truthiness matter; numbers
that the code treats as real-valued audio times/samples are embedded as `ℚ`.
-/

namespace UltraChat

/-- JS strings, embedded as character lists so that `split`/`trim`/`slice`
are structurally computable. -/
abbrev JStr := List Char

/-- Literal helper: the character list of a Lean string literal. -/
def lit (s : String) : JStr := s.data

/-- The whitespace predicate used by JS `String.prototype.trim` (restricted
to the ASCII whitespace that can occur in SSE frames). -/
def jsIsWs (c : Char) : Bool := c = ' ' || c = '\t' || c = '\n' || c = '\r'

/-- JS `s.trim()`: strip leading and trailing whitespace. -/
def jsTrim (s : JStr) : JStr :=
  ((s.dropWhile jsIsWs).reverse.dropWhile jsIsWs).reverse

/-- JS `s.split('\n')`: split on every newline, keeping empty fragments,
never returning an empty list. -/
def jsSplitNl (s : JStr) : List JStr :=
  match s with
  | [] => [[]]
  | c :: rest =>
    let r := jsSplitNl rest
    if c = '\n' then [] :: r else (c :: r.headD []) :: r.tail

/-- JS truthiness of a string: every string except `''` is truthy. -/
def jsTruthy (s : JStr) : Bool := !s.isEmpty

/-- JS truthiness of the `currentEvent` variable of `ApiClient.stream`,
which is either `null` or a string. -/
def evTruthy : Option JStr → Bool
  | none => false
  | some s => jsTruthy s

namespace Api

/-- The payload of a decoded SSE frame: `JSON.parse(data)` on success, the
`{raw: data}` wrapper when parsing throws.  The JSON value type `J` and the
parser are parameters of the embedding (`JSON.parse` is a platform builtin). -/
inductive Payload (J : Type) where
  | json (v : J)
  | raw (s : JStr)
deriving DecidableEq

/-- `try { JSON.parse(data) } catch { {raw: data} }` of `ApiClient.stream`. -/
def parseData {J : Type} (jparse : JStr → Option J) (d : JStr) : Payload J :=
  match jparse d with
  | some v => Payload.json v
  | none => Payload.raw d

/-- The `for (const line of lines)` loop of `ApiClient.stream`
(api.js lines 107–123): `event:` lines set the pending event name (trimmed),
`data:` lines yield a pair when both the pending event name and the trimmed
data are truthy, and reset the pending name after a yield. -/
def processLines {J : Type} (jparse : JStr → Option J) :
    List JStr → Option JStr → List (JStr × Payload J)
  | [], _ => []
  | line :: rest, currentEvent =>
    if (lit "event:").isPrefixOf line then
      processLines jparse rest (some (jsTrim (line.drop 6)))
    else if (lit "data:").isPrefixOf line then
      let d := jsTrim (line.drop 5)
      if evTruthy currentEvent && jsTruthy d then
        (currentEvent.getD [], parseData jparse d) :: processLines jparse rest none
      else
        processLines jparse rest currentEvent
    else
      processLines jparse rest currentEvent

/-- One iteration of the `while (true)` read loop of `ApiClient.stream`
(api.js lines 99–124): append the chunk to the carry-over buffer, split on
newlines, keep the final fragment as the new buffer, and walk the completed
lines with `currentEvent` freshly initialised to `null` (it is declared
inside the loop body). Returns the new buffer and the yielded pairs. -/
def processChunk {J : Type} (jparse : JStr → Option J) (buffer chunk : JStr) :
    JStr × List (JStr × Payload J) :=
  let lines := jsSplitNl (buffer ++ chunk)
  (lines.getLastD [], processLines jparse lines.dropLast none)

/-- The read loop of `ApiClient.stream` over a whole list of chunks; the
final carry-over buffer is discarded when the transport closes. -/
def decodeLoop {J : Type} (jparse : JStr → Option J) :
    List JStr → JStr → List (JStr × Payload J)
  | [], _ => []
  | c :: cs, buffer =>
    let step := processChunk jparse buffer c
    step.2 ++ decodeLoop jparse cs step.1

/-- `ApiClient.stream`'s SSE decoding of a chunked byte stream, starting
from the empty buffer. -/
def stream {J : Type} (jparse : JStr → Option J) (chunks : List JStr) :
    List (JStr × Payload J) :=
  decodeLoop jparse chunks []

end Api
/-- The predicate satisfied by every payload the decoder can yield: a raw
payload is a truthy (non-empty) trimmed string, a JSON payload is the parse
of a truthy trimmed string. -/
def payloadOk {J : Type} (jparse : JStr → Option J) : Api.Payload J → Prop
  | Api.Payload.raw s => jsTruthy s = true
  | Api.Payload.json v => ∃ d, jsTruthy d = true ∧ jparse d = some v

namespace VoiceMode

/-- JS truthiness of an optional string field: present and non-empty. -/
def otruthy : Option String → Bool
  | none => false
  | some s => !s.isEmpty

/-- JS `a || b` for an optional string `a` and a string default `b`:
`b` when `a` is absent or empty. -/
def jsOr (a : Option String) (b : String) : String :=
  match a with
  | some s => if s.isEmpty then b else s
  | none => b

/-- JS `data.round || 1`: absent or zero round numbers default to 1. -/
def effRound : Option Nat → Nat
  | some n => if n = 0 then 1 else n
  | none => 1

/-- The fields of a decoded SSE event payload that `processStream` reads.
Absent fields are `none`.  A payload that failed JSON parsing is the
`{raw: <string>}` wrapper: only its `raw` field is set.  The opaque
`arguments` JSON of a tool call is carried as its stringification. -/
structure EvData where
  conversation_id : Option String := none
  status : Option String := none
  delta : Option String := none
  round : Option Nat := none
  tool : Option String := none
  arguments : Option String := none
  result : Option String := none
  result_preview : Option String := none
  token : Option String := none
  content : Option String := none
  error : Option String := none
  raw : Option String := none
deriving DecidableEq

/-- `data.result || data.result_preview || ''` of the `tool_result` handler. -/
def resultText (d : EvData) : String := jsOr d.result (jsOr d.result_preview "")

/-- `data.token || data.content || ''` of the `token` handler. -/
def tokenText (d : EvData) : String := jsOr d.token (jsOr d.content "")

/-- An entry of the `toolEvents` list of `processStream`.  The `id` and
`timestamp` fields of the JS objects (derived from `Date.now()` and used
only as React render keys) are outside the embedding. -/
inductive ToolItem where
  | thinkingPending (round : Nat) (thinking : String)
  | call (tool : String) (args : Option String) (thinking : String) (round : Nat)
      (result : Option String) (status : Option String)
  | result (tool : String) (res : String) (round : Nat)
deriving DecidableEq

/-- JS falsiness of the `result` field of a tool-call record
(`!item.result`): absent or the empty string. -/
def resultFalsy : Option String → Bool
  | none => true
  | some s => s.isEmpty

/-- `item.type === 'thinking_pending' && item.round === round`. -/
def isPendingFor (r : Nat) : ToolItem → Bool
  | ToolItem.thinkingPending r' _ => r' == r
  | _ => false

/-- `item.type === 'call' && item.tool === data.tool && !item.result`. -/
def isOpenCallFor (t : String) : ToolItem → Bool
  | ToolItem.call t' _ _ _ res _ => t' == t && resultFalsy res
  | _ => false

/-- `item.thinking || ''`: the thinking text of an item, `''` when absent. -/
def thinkingOf : ToolItem → String
  | ToolItem.thinkingPending _ th => th
  | ToolItem.call _ _ th _ _ _ => th
  | ToolItem.result _ _ _ => ""

/-- `{...item, thinking: (item.thinking || '') + delta}`; only ever applied
to a `thinking_pending` item (the `findIndex` predicate guarantees it). -/
def addDelta (delta : String) : ToolItem → ToolItem
  | ToolItem.thinkingPending r th => ToolItem.thinkingPending r (th ++ delta)
  | x => x

/-- `{...item, result: <text>, status: 'complete'}`; only ever applied to a
`call` item (the `findIndex` predicate guarantees it). -/
def attachResult (res : String) : ToolItem → ToolItem
  | ToolItem.call t a th r _ _ => ToolItem.call t a th r (some res) (some "complete")
  | x => x

/-- The `[...arr].reverse().findIndex(p)` / `length - 1 - i` pattern of
`processStream`: the index of the *last* element satisfying `p`. -/
def lastIdxOf {α : Type} (p : α → Bool) (l : List α) : Option Nat :=
  (l.reverse.findIdx? p).map (fun i => l.length - 1 - i)

/-- The `tool_thinking_delta` handler (VoiceMode.jsx lines 1822–1850):
append the delta to the last pending placeholder of the round, or create a
new placeholder at the end of the list. -/
def applyThinkingDelta (r : Nat) (delta : String) (updated : List ToolItem) :
    List ToolItem :=
  match lastIdxOf (isPendingFor r) updated with
  | some i => updated.set i (addDelta delta (updated.getD i (ToolItem.thinkingPending r "")))
  | none => updated ++ [ToolItem.thinkingPending r delta]

/-- The `tool_call` handler (VoiceMode.jsx lines 1852–1877): remove the
first pending placeholder of the round (if any), then push a new call
record carrying the placeholder's buffered thinking. -/
def applyToolCall (t : String) (args : Option String) (r : Nat)
    (updated : List ToolItem) : List ToolItem :=
  match updated.findIdx? (isPendingFor r) with
  | some i =>
      updated.eraseIdx i ++
        [ToolItem.call t args (thinkingOf (updated.getD i (ToolItem.thinkingPending r ""))) r none none]
  | none => updated ++ [ToolItem.call t args "" r none none]

/-- The `tool_result` handler (VoiceMode.jsx lines 1879–1907): attach the
result to the last call record of the tool that has a falsy `result` and
mark it complete, or push a standalone result record. -/
def applyToolResult (t res : String) (r : Nat) (updated : List ToolItem) :
    List ToolItem :=
  match lastIdxOf (isOpenCallFor t) updated with
  | some i => updated.set i (attachResult res (updated.getD i (ToolItem.result t res r)))
  | none => updated ++ [ToolItem.result t res r]

/-- A decoded `(event, data)` pair as consumed by `processStream`. -/
structure Ev where
  event : String
  data : EvData
deriving DecidableEq

/-- The per-request interpreter state of `processStream`: the accumulated
token text, the conversation id, and the tool-event list.  UI side effects
(`setStreamingContent`, `loadConversation`, logging) are outside the
embedding. -/
structure InterpState where
  fullContent : String
  conversationId : Option String
  toolEvents : List ToolItem
deriving DecidableEq

/-- One iteration of the `for await` loop of `processStream`
(VoiceMode.jsx lines 1806–1930).  An `error` event throws, aborting the
stream with the thrown message. -/
def step (st : InterpState) (e : Ev) : Except String InterpState :=
  if e.event = "start" then
    Except.ok { st with conversationId := e.data.conversation_id }
  else if e.event = "status" then
    let st1 :=
      if otruthy e.data.conversation_id then
        { st with conversationId := e.data.conversation_id }
      else st
    let st2 :=
      if e.data.status = some "tool_thinking_delta" ∧ otruthy e.data.delta then
        { st1 with toolEvents :=
            applyThinkingDelta (effRound e.data.round) (jsOr e.data.delta "") st1.toolEvents }
      else st1
    let st3 :=
      if e.data.status = some "tool_call" ∧ otruthy e.data.tool then
        { st2 with toolEvents :=
            applyToolCall (jsOr e.data.tool "") e.data.arguments (effRound e.data.round) st2.toolEvents }
      else st2
    let st4 :=
      if e.data.status = some "tool_result" ∧ otruthy e.data.tool then
        { st3 with toolEvents :=
            applyToolResult (jsOr e.data.tool "") (resultText e.data) (effRound e.data.round) st3.toolEvents }
      else st3
    Except.ok st4
  else if e.event = "token" then
    Except.ok { st with fullContent := st.fullContent ++ tokenText e.data }
  else if e.event = "done" then
    let st1 :=
      if otruthy e.data.conversation_id then
        { st with conversationId := e.data.conversation_id }
      else st
    Except.ok { st1 with toolEvents := [] }
  else if e.event = "error" then
    Except.error (jsOr e.data.error "Generation failed")
  else
    Except.ok st

/-- The whole `for await` loop: fold `step` over the decoded events,
aborting at the first thrown error. -/
def run : List Ev → InterpState → Except String InterpState
  | [], st => Except.ok st
  | e :: es, st =>
    match step st e with
    | Except.ok st' => run es st'
    | Except.error m => Except.error m

/-- The state of `processStream` on entry: empty accumulated text, the
current conversation's id (if any), and the tool-event list cleared by
`handleSend`. -/
def initState (cid : Option String) : InterpState :=
  { fullContent := "", conversationId := cid, toolEvents := [] }

/-- The combined effect of the three tool-event conditionals of the
`status` handler on the `toolEvents` list (the three guards are mutually
exclusive because they test `data.status` against different strings). -/
def statusToolUpdate (d : EvData) (l : List ToolItem) : List ToolItem :=
  let l1 :=
    if d.status = some "tool_thinking_delta" ∧ otruthy d.delta then
      applyThinkingDelta (effRound d.round) (jsOr d.delta "") l
    else l
  let l2 :=
    if d.status = some "tool_call" ∧ otruthy d.tool then
      applyToolCall (jsOr d.tool "") d.arguments (effRound d.round) l1
    else l1
  if d.status = some "tool_result" ∧ otruthy d.tool then
    applyToolResult (jsOr d.tool "") (resultText d) (effRound d.round) l2
  else l2

/-- The thinking text an event contributes to round `r`: the `delta` field
of a `status` event whose guard (`status === 'tool_thinking_delta' &&
delta`) holds and whose effective round is `r`; nothing otherwise. -/
def deltaContrib (r : Nat) (e : Ev) : List String :=
  if e.event = "status" ∧ e.data.status = some "tool_thinking_delta" ∧
      otruthy e.data.delta = true ∧ effRound e.data.round = r
  then [jsOr e.data.delta ""] else []

/-- The thinking texts contributed to round `r` by a decoded event
sequence, in arrival order. -/
def deltasOf (r : Nat) : List Ev → List String
  | [] => []
  | e :: es => deltaContrib r e ++ deltasOf r es

/-- An event that neither terminates the stream nor consumes round `r`'s
pending placeholder: not `done` (which clears all tool state), not `error`
(which aborts), and not a `tool_call` for round `r`. -/
def benignFor (r : Nat) (e : Ev) : Prop :=
  ¬e.event = "done" ∧ ¬e.event = "error" ∧
  ¬(e.event = "status" ∧ e.data.status = some "tool_call" ∧
      otruthy e.data.tool = true ∧ effRound e.data.round = r)

instance (r : Nat) (e : Ev) : Decidable (benignFor r e) :=
  inferInstanceAs (Decidable (¬e.event = "done" ∧ ¬e.event = "error" ∧
    ¬(e.event = "status" ∧ e.data.status = some "tool_call" ∧
        otruthy e.data.tool = true ∧ effRound e.data.round = r)))

/-- Abstraction of round `r`'s pending-placeholder state: `none` means no
placeholder, `some a` means a single placeholder holding text `a`. -/
def pendItems (r : Nat) : Option String → List ToolItem
  | none => []
  | some a => [ToolItem.thinkingPending r a]

/-- How a list of arriving deltas evolves the pending-placeholder state:
each delta appends to the buffered text, creating the buffer (from `''`)
when absent. -/
def accDeltas (acc : Option String) (ds : List String) : Option String :=
  ds.foldl (fun a d => some (a.getD "" ++ d)) acc

end VoiceMode

namespace VoiceChat

/-- The playback scheduling step of `playAudio` (part_006 lines 226–229):
start at the later of the audio context's current time and the cursor, and
advance the cursor past the buffer: `startTime = max(currentTime,
nextPlayTime); nextPlayTime = startTime + duration`.  Returns the computed
start time and the new cursor.  Times are embedded as `ℚ`. -/
def playAudioSched (now nextPlayTime dur : ℚ) : ℚ × ℚ :=
  let startTime := max now nextPlayTime
  (startTime, startTime + dur)

/-- Scheduling a whole sequence of buffers: each arrives when the context
clock reads `now_i` and lasts `d_i`; the cursor threads through.  Returns
the list of computed start times. -/
def schedList : List (ℚ × ℚ) → ℚ → List ℚ
  | [], _ => []
  | (now, dur) :: rest, next =>
    let s := playAudioSched now next dur
    s.1 :: schedList rest s.2

/-- The two WebSocket messages that drive the playback path: `ready`
(carrying the context's current time at creation) and `audio` (arriving at
context time `now` with decoded duration `dur`). -/
inductive Msg where
  | ready (ctxTime : ℚ)
  | audio (now dur : ℚ)

/-- The playback refs of `VoiceChatSession`: whether `audioContextRef` is
set, and `nextPlayTimeRef`. -/
structure AudioState where
  ctxReady : Bool
  nextPlayTime : ℚ

/-- On mount: no audio context, `nextPlayTimeRef = useRef(0)`. -/
def initAudioState : AudioState := { ctxReady := false, nextPlayTime := 0 }

/-- The `ready` handler (initWebSocket lines 98–105) creates the context
once and sets the cursor to `audioContext.currentTime`; `playAudio` (lines
181–229) skips playback entirely while the context is missing, otherwise
schedules the buffer.  Returns the new state and the scheduled start time,
if any. -/
def handleMsg (st : AudioState) (m : Msg) : AudioState × Option ℚ :=
  match m with
  | Msg.ready t =>
    if st.ctxReady then (st, none)
    else ({ ctxReady := true, nextPlayTime := t }, none)
  | Msg.audio now dur =>
    if st.ctxReady then
      let s := playAudioSched now st.nextPlayTime dur
      ({ st with nextPlayTime := s.2 }, some s.1)
    else (st, none)

/-- JS truncation toward zero (`ToIntegerOrInfinity`), on exact rationals. -/
def jsTrunc (q : ℚ) : ℤ := if 0 ≤ q then ⌊q⌋ else ⌈q⌉

/-- The `ToInt16` conversion applied on assignment into an `Int16Array`:
wrap modulo 2^16 and reinterpret as signed. -/
def toInt16 (n : ℤ) : ℤ :=
  let m := n % 65536
  if m < 32768 then m else m - 65536

/-- The capture-path PCM16 encoder of `handleSpeechEnd` (part_006 lines
330–336): clamp to `[-1, 1]`, scale negatives by `0x8000` and
non-negatives by `0x7FFF`, and store into an `Int16Array`. -/
def encodeSample (sample : ℚ) : ℤ :=
  let s := max (-1) (min 1 sample)
  toInt16 (jsTrunc (if s < 0 then s * 0x8000 else s * 0x7FFF))

/-- The little-endian byte pair of a sample as it crosses the wire
(`Int16Array.buffer`). -/
def toBytes (v : ℤ) : ℤ × ℤ := ((v % 65536) % 256, (v % 65536) / 256)

/-- The playback-path byte reassembly of `playAudio` (lines 191–194):
`pcm16[i] = charCodeAt(2i) | (charCodeAt(2i+1) << 8)`, stored into an
`Int16Array`. -/
def fromBytes (lo hi : ℤ) : ℤ := toInt16 (lo + hi * 256)

/-- The playback-path decoder (line 200): `float32[i] = pcm16[i] / 32768`. -/
def decodeSample (v : ℤ) : ℚ := (v : ℚ) / 32768

/-- Capture-encode a float sample, send it over the wire, and
playback-decode it. -/
def roundTrip (s : ℚ) : ℚ :=
  decodeSample (fromBytes (toBytes (encodeSample s)).1 (toBytes (encodeSample s)).2)

end VoiceChat

namespace Http

/-- JSON values, as far as the error-body interpretation inspects them
(numbers restricted to integers — fractional values play no role here). -/
inductive JsonV where
  | null
  | bool (b : Bool)
  | num (n : ℤ)
  | str (s : String)
  | arr (l : List JsonV)
  | obj (fields : List (String × JsonV))

/-- JS property access `x.k` on a parsed JSON value: `undefined` (here
`none`) unless `x` is an object with the field. -/
def getField : JsonV → String → Option JsonV
  | JsonV.obj fields, k => (fields.find? (fun f => f.1 == k)).map (fun f => f.2)
  | _, _ => none

/-- JS truthiness of a JSON value. -/
def jsTruthyV : JsonV → Bool
  | JsonV.null => false
  | JsonV.bool b => b
  | JsonV.num n => n != 0
  | JsonV.str s => !s.isEmpty
  | JsonV.arr _ => true
  | JsonV.obj _ => true

/-- JS `x || y` on JSON values (`undefined` modelled by the `Option`). -/
def jsOrV (a : Option JsonV) (b : JsonV) : JsonV :=
  match a with
  | some v => if jsTruthyV v then v else b
  | none => b

mutual

/-- The JS `String(x)` coercion (an array stringifies as its elements
joined by commas, an object as `[object Object]`). -/
def jsToString : JsonV → String
  | JsonV.null => "null"
  | JsonV.bool b => if b then "true" else "false"
  | JsonV.num n => toString n
  | JsonV.str s => s
  | JsonV.arr l => jsToStringList l
  | JsonV.obj _ => "[object Object]"

/-- `Array.prototype.join(',')` over stringified elements. -/
def jsToStringList : List JsonV → String
  | [] => ""
  | [x] => jsToString x
  | x :: y :: rest => jsToString x ++ "," ++ jsToStringList (y :: rest)

end

mutual

/-- `JSON.stringify` (string escaping elided — the inputs considered here
contain no characters needing escapes). -/
def stringify : JsonV → String
  | JsonV.null => "null"
  | JsonV.bool b => if b then "true" else "false"
  | JsonV.num n => toString n
  | JsonV.str s => "\"" ++ s ++ "\""
  | JsonV.arr l => "[" ++ stringifyList l ++ "]"
  | JsonV.obj f => "\x7b" ++ stringifyFields f ++ "\x7d"

def stringifyList : List JsonV → String
  | [] => ""
  | [x] => stringify x
  | x :: y :: rest => stringify x ++ "," ++ stringifyList (y :: rest)

def stringifyFields : List (String × JsonV) → String
  | [] => ""
  | [f] => "\"" ++ f.1 ++ "\":" ++ stringify f.2
  | f :: g :: rest => "\"" ++ f.1 ++ "\":" ++ stringify f.2 ++ "," ++ stringifyFields (g :: rest)

end

/-- One FastAPI validation-error element: `e.msg || e.message ||
JSON.stringify(e)`, coerced by `join` through `String()`. -/
def elemMsg (e : JsonV) : String :=
  if jsTruthyV (jsOrV (getField e "msg") JsonV.null) then
    jsToString (jsOrV (getField e "msg") JsonV.null)
  else if jsTruthyV (jsOrV (getField e "message") JsonV.null) then
    jsToString (jsOrV (getField e "message") JsonV.null)
  else stringify e

/-- The non-OK branch of `ApiClient.stream` (api.js lines 71–91): derive
the thrown message from the parsed error body, falling back to
`HTTP <status>: <statusText>` when reading or parsing the body threw. -/
def streamErrorMessage (parsed : Option JsonV) (status : Nat)
    (statusText : String) : String :=
  match parsed with
  | none => "HTTP " ++ toString status ++ ": " ++ statusText
  | some body =>
    match getField body "error" with
    | some (JsonV.str s) => s
    | _ =>
      match getField body "detail" with
      | some (JsonV.str s) => s
      | some (JsonV.arr l) => String.intercalate ", " (l.map elemMsg)
      | _ =>
        match getField body "message" with
        | some (JsonV.str s) => s
        | _ => stringify body

/-- The non-OK branch of `ApiClient.request` (api.js lines 16–31): for a
JSON response, throw `Error(data.error || data.detail || 'Request
failed')` (whose message is the `String()` coercion of that value); for a
JSON body that fails to parse, the parse exception itself is rethrown
(`none` here); otherwise throw `Request failed: <statusText>`. -/
def requestErrorMessage (isJson : Bool) (parsed : Option JsonV)
    (statusText : String) : Option String :=
  if isJson then
    match parsed with
    | none => none
    | some data =>
      some (jsToString (jsOrV (getField data "error")
        (jsOrV (getField data "detail") (JsonV.str "Request failed"))))
  else some ("Request failed: " ++ statusText)

/-- Modelled from the spec's words, for comparison with the code: "prefer
`error` (string), then `detail` (string), then `detail` (array of
`{msg|message}` objects joined), then `message`, else stringify the whole
body; network/parse failure falls back to `HTTP <status>: <statusText>`". -/
def claimedErrorPrecedence (parsed : Option JsonV) (status : Nat)
    (statusText : String) : String :=
  match parsed with
  | none => "HTTP " ++ toString status ++ ": " ++ statusText
  | some body =>
    match getField body "error" with
    | some (JsonV.str s) => s
    | _ =>
      match getField body "detail" with
      | some (JsonV.str s) => s
      | some (JsonV.arr l) => String.intercalate ", " (l.map elemMsg)
      | _ =>
        match getField body "message" with
        | some (JsonV.str s) => s
        | _ => stringify body

end Http

/-- Decidable equality for interpreter outcomes, used to evaluate concrete
runs of the embedded `processStream`. -/
instance {e a : Type} [DecidableEq e] [DecidableEq a] : DecidableEq (Except e a)
  | Except.ok x, Except.ok y =>
    if h : x = y then isTrue (by rw [h]) else isFalse (fun hc => by cases hc; exact h rfl)
  | Except.ok _, Except.error _ => isFalse (fun hc => by cases hc)
  | Except.error _, Except.ok _ => isFalse (fun hc => by cases hc)
  | Except.error x, Except.error y =>
    if h : x = y then isTrue (by rw [h]) else isFalse (fun hc => by cases hc; exact h rfl)

/-- A line that starts with `data:` does not start with `event:` (the first
characters differ), so the two branches of the line walk are disjoint. -/
lemma not_event_of_data {line : JStr} (h : (lit "data:").isPrefixOf line = true) :
    (lit "event:").isPrefixOf line = false := by
  have hd : lit "data:" = ['d', 'a', 't', 'a', ':'] := rfl
  have he : lit "event:" = ['e', 'v', 'e', 'n', 't', ':'] := rfl
  cases line with
  | nil => rw [hd] at h; simp [List.isPrefixOf] at h
  | cons c rest =>
    rw [hd] at h
    rw [he]
    simp only [List.isPrefixOf, Bool.and_eq_true, beq_iff_eq] at h
    obtain ⟨hc, -⟩ := h
    subst hc
    simp only [List.isPrefixOf]
    rw [show (('e' == 'd') : Bool) = false from rfl, Bool.false_and]

/-- Every pair yielded by the line walk has a truthy event name and a
truthy data string. -/
lemma processLines_sound {J : Type} (jparse : JStr → Option J) :
    ∀ (lines : List JStr) (cur : Option JStr) (p : JStr × Api.Payload J),
      p ∈ Api.processLines jparse lines cur →
      jsTruthy p.1 = true ∧ payloadOk jparse p.2 := by
  intro lines
  induction lines with
  | nil => intro cur p hp; simp [Api.processLines] at hp
  | cons line rest ih =>
    intro cur p hp
    rw [Api.processLines] at hp
    by_cases h1 : (lit "event:").isPrefixOf line = true
    · rw [if_pos h1] at hp
      exact ih _ p hp
    · rw [if_neg h1] at hp
      by_cases h2 : (lit "data:").isPrefixOf line = true
      · rw [if_pos h2] at hp
        by_cases h3 : (evTruthy cur && jsTruthy (jsTrim (line.drop 5))) = true
        · rw [if_pos h3] at hp
          rcases List.mem_cons.mp hp with heq | htl
          · subst heq
            rcases Bool.and_eq_true_iff.mp h3 with ⟨hev, hd⟩
            constructor
            · cases cur with
              | none => simp [evTruthy] at hev
              | some s => simpa [evTruthy] using hev
            · simp only [Api.parseData]
              cases hj : jparse (jsTrim (line.drop 5)) with
              | none => simpa [payloadOk] using hd
              | some v => exact ⟨jsTrim (line.drop 5), hd, hj⟩
          · exact ih _ p htl
        · rw [if_neg h3] at hp
          exact ih _ p hp
      · rw [if_neg h2] at hp
        exact ih _ p hp

/-- Every pair yielded by the chunk read loop has a truthy event name and a
truthy data string. -/
lemma decodeLoop_sound {J : Type} (jparse : JStr → Option J) :
    ∀ (chunks : List JStr) (buffer : JStr) (p : JStr × Api.Payload J),
      p ∈ Api.decodeLoop jparse chunks buffer →
      jsTruthy p.1 = true ∧ payloadOk jparse p.2 := by
  intro chunks
  induction chunks with
  | nil => intro buffer p hp; simp [Api.decodeLoop] at hp
  | cons c cs ih =>
    intro buffer p hp
    rw [Api.decodeLoop] at hp
    rcases List.mem_append.mp hp with hl | hr
    · exact processLines_sound jparse _ _ p hl
    · exact ih _ p hr

/-- C1: the SSE decoder is *not* chunk-boundary invariant.  Splitting the
byte sequence `"event: status\ndata: hi\n"` between the `event:` line and the
`data:` line makes the decoder emit nothing, while decoding the whole
sequence as a single chunk emits the frame: `currentEvent` is declared
inside the read loop (api.js line 107), so a pending event name does not
survive a chunk boundary.  This refutes chunk-boundary invariance at a
concrete input. -/
theorem sse_chunk_split_drops_frame :
    Api.stream (J := Unit) (fun _ => none)
        [lit "event: status\n", lit "data: hi\n"] = [] ∧
    Api.stream (J := Unit) (fun _ => none)
        [lit "event: status\ndata: hi\n"] =
      [(lit "status", Api.Payload.raw (lit "hi"))] := by
  decide

/-- C7: malformed-frame recovery.  When a `data:` line's trimmed content
fails to parse as JSON (the parser returns `none`), the decoder yields a
pair whose payload is the `{raw: <trimmed string>}` wrapper instead of
failing, and the remaining lines are processed exactly as they would be
after a well-formed frame (the continuation is `processLines jparse rest
none` in both cases), so every subsequent well-formed frame is still
decoded and yielded normally. -/
theorem sse_raw_payload_recovery {J : Type} (jparse : JStr → Option J)
    (line : JStr) (rest : List JStr) (ev : JStr)
    (hline : (lit "data:").isPrefixOf line = true)
    (hev : jsTruthy ev = true)
    (hd : jsTruthy (jsTrim (line.drop 5)) = true) :
    (jparse (jsTrim (line.drop 5)) = none →
      Api.processLines jparse (line :: rest) (some ev) =
        (ev, Api.Payload.raw (jsTrim (line.drop 5))) ::
          Api.processLines jparse rest none) ∧
    (∀ v, jparse (jsTrim (line.drop 5)) = some v →
      Api.processLines jparse (line :: rest) (some ev) =
        (ev, Api.Payload.json v) :: Api.processLines jparse rest none) := by
  have hne := not_event_of_data hline
  have hcond : (evTruthy (some ev) && jsTruthy (jsTrim (line.drop 5))) = true := by
    simp [evTruthy, hev, hd]
  constructor
  · intro hp
    rw [Api.processLines]
    rw [if_neg (by simp [hne]), if_pos hline, if_pos hcond]
    simp [Api.parseData, hp]
  · intro v hp
    rw [Api.processLines]
    rw [if_neg (by simp [hne]), if_pos hline, if_pos hcond]
    simp [Api.parseData, hp]

/-- Witness for C7 at a concrete stream: a malformed `data:` line yields its
raw payload and the following well-formed frame still decodes. -/
theorem sse_raw_payload_recovery_witness :
    Api.processLines (J := Unit) (fun _ => none)
        [lit "data: oops", lit "event: t", lit "data: ok"] (some (lit "x")) =
      [(lit "x", Api.Payload.raw (lit "oops")),
       (lit "t", Api.Payload.raw (lit "ok"))] := by
  have h := (sse_raw_payload_recovery (J := Unit) (fun _ => none)
      (lit "data: oops") [lit "event: t", lit "data: ok"] (lit "x")
      (by decide) (by decide) (by decide)).1 rfl
  rw [h]
  decide

/-- C10: the decoder never yields a pair with an empty event name or an
empty data string; a `data:` line whose content trims to the empty string
produces no output and leaves the pending event name unchanged; and a
`data:` line arriving while no event name is pending produces no output. -/
theorem sse_no_empty_emission :
    (∀ (J : Type) (jparse : JStr → Option J) (chunks : List JStr)
        (p : JStr × Api.Payload J), p ∈ Api.stream jparse chunks →
        jsTruthy p.1 = true ∧ payloadOk jparse p.2) ∧
    (∀ (J : Type) (jparse : JStr → Option J) (line : JStr) (rest : List JStr)
        (cur : Option JStr), (lit "data:").isPrefixOf line = true →
        jsTruthy (jsTrim (line.drop 5)) = false →
        Api.processLines jparse (line :: rest) cur =
          Api.processLines jparse rest cur) ∧
    (∀ (J : Type) (jparse : JStr → Option J) (line : JStr) (rest : List JStr),
        (lit "data:").isPrefixOf line = true →
        Api.processLines jparse (line :: rest) none =
          Api.processLines jparse rest none) := by
  refine ⟨?_, ?_, ?_⟩
  · intro J jparse chunks p hp
    exact decodeLoop_sound jparse chunks [] p hp
  · intro J jparse line rest cur hline hd
    rw [Api.processLines, if_neg (by simp [not_event_of_data hline]),
      if_pos hline, if_neg (by simp [hd])]
  · intro J jparse line rest hline
    rw [Api.processLines, if_neg (by simp [not_event_of_data hline]),
      if_pos hline, if_neg (by simp [evTruthy])]

/-- Witness for C10 at concrete inputs: the unique pair decoded from
`"event: status\ndata: hi\n"` has a truthy event name and payload; an
all-whitespace `data:` line is skipped with the pending event preserved;
a `data:` line with no pending event is skipped. -/
theorem sse_no_empty_emission_witness :
    (jsTruthy (lit "status") = true ∧
      payloadOk (J := Unit) (fun _ => none) (Api.Payload.raw (lit "hi"))) ∧
    Api.processLines (J := Unit) (fun _ => none)
        [lit "data:   ", lit "data: 1"] (some (lit "e")) =
      Api.processLines (fun _ => none) [lit "data: 1"] (some (lit "e")) ∧
    Api.processLines (J := Unit) (fun _ => none) [lit "data: 1"] none =
      Api.processLines (fun _ => none) [] none :=
  ⟨sse_no_empty_emission.1 Unit (fun _ => none)
      [lit "event: status\ndata: hi\n"]
      (lit "status", Api.Payload.raw (lit "hi")) (by decide),
   sse_no_empty_emission.2.1 Unit (fun _ => none) (lit "data:   ")
      [lit "data: 1"] (some (lit "e")) (by decide) (by decide),
   sse_no_empty_emission.2.2 Unit (fun _ => none) (lit "data: 1") []
      (by decide)⟩

namespace VoiceMode

/-- `start` handler: the conversation id is assigned unconditionally. -/
lemma step_start (st : InterpState) (d : EvData) :
    step st ⟨"start", d⟩ = Except.ok { st with conversationId := d.conversation_id } := by
  rw [step, if_pos rfl]

/-- `token` handler: the token text is appended to the accumulated text. -/
lemma step_token (st : InterpState) (d : EvData) :
    step st ⟨"token", d⟩ =
      Except.ok { st with fullContent := st.fullContent ++ tokenText d } := by
  rw [step, if_neg (show ¬("token" : String) = "start" by decide),
    if_neg (show ¬("token" : String) = "status" by decide), if_pos rfl]

/-- `done` handler: the conversation id is updated only when truthy, and
the tool-event list is cleared. -/
lemma step_done (st : InterpState) (d : EvData) :
    step st ⟨"done", d⟩ = Except.ok
      { fullContent := st.fullContent,
        conversationId :=
          if otruthy d.conversation_id = true then d.conversation_id
          else st.conversationId,
        toolEvents := [] } := by
  rw [step, if_neg (show ¬("done" : String) = "start" by decide),
    if_neg (show ¬("done" : String) = "status" by decide),
    if_neg (show ¬("done" : String) = "token" by decide), if_pos rfl]
  dsimp only
  split_ifs <;> rfl

/-- `error` handler: the stream throws with the payload's `error` field, or
the generic message when it is absent or empty. -/
lemma step_error (st : InterpState) (d : EvData) :
    step st ⟨"error", d⟩ = Except.error (jsOr d.error "Generation failed") := by
  rw [step, if_neg (show ¬("error" : String) = "start" by decide),
    if_neg (show ¬("error" : String) = "status" by decide),
    if_neg (show ¬("error" : String) = "token" by decide),
    if_neg (show ¬("error" : String) = "done" by decide), if_pos rfl]

/-- `status` handler: the conversation id is updated only when truthy, and
the tool-event list evolves by `statusToolUpdate`. -/
lemma step_status (st : InterpState) (d : EvData) :
    step st ⟨"status", d⟩ = Except.ok
      { fullContent := st.fullContent,
        conversationId :=
          if otruthy d.conversation_id = true then d.conversation_id
          else st.conversationId,
        toolEvents := statusToolUpdate d st.toolEvents } := by
  rw [step, if_neg (show ¬("status" : String) = "start" by decide), if_pos rfl,
    statusToolUpdate]
  dsimp only
  split_ifs <;> rfl

/-- An event of any other name leaves the state unchanged. -/
lemma step_other (st : InterpState) (e : Ev) (h1 : ¬e.event = "start")
    (h2 : ¬e.event = "status") (h3 : ¬e.event = "token")
    (h4 : ¬e.event = "done") (h5 : ¬e.event = "error") :
    step st e = Except.ok st := by
  rw [step, if_neg h1, if_neg h2, if_neg h3, if_neg h4, if_neg h5]

/-- C6 (counterexample): an `error` event whose payload failed JSON parsing
and was delivered as `{raw: "boom"}` aborts the stream with the generic
message `"Generation failed"`; the raw text `"boom"` does not reach the
caller (it is not even a substring of the surfaced message), refuting the
claim that the raw string text reaches the caller as the failure reason. -/
theorem error_raw_dropped_counterexample :
    run [⟨"error", { raw := some "boom" }⟩] (initState none) =
      Except.error "Generation failed" ∧
    ¬ List.IsInfix "boom".data "Generation failed".data := by
  constructor
  · decide
  · decide

/-- C6 (amended): an `error` event aborts the stream immediately — no
subsequent event is processed — and the failure surfaced to the caller is
the payload's `error` field when it is present and non-empty, else the
generic `"Generation failed"`; in particular a `{raw: <string>}` payload
surfaces the generic message, not the raw text. -/
theorem error_event_aborts (st : InterpState) (d : EvData) (es : List Ev) :
    run (⟨"error", d⟩ :: es) st =
      Except.error (jsOr d.error "Generation failed") := by
  rw [run, step_error]

/-- C9 (counterexample): the conversation id is not first-wins and can be
downgraded: after a `status` event carrying conversation id `"A"`, a
`start` event with no `conversation_id` field overwrites the id with
`undefined` (the `start` handler assigns unconditionally). -/
theorem conversation_id_downgrade_counterexample :
    run [⟨"status", { conversation_id := some "A" }⟩] (initState none) =
      Except.ok { fullContent := "", conversationId := some "A", toolEvents := [] } ∧
    run [⟨"status", { conversation_id := some "A" }⟩, ⟨"start", {}⟩] (initState none) =
      Except.ok { fullContent := "", conversationId := none, toolEvents := [] } := by
  decide

/-- C9 (amended): the conversation id is last-assignment-wins: a `status`
or `done` event updates it exactly when it carries a truthy
`conversation_id` (and therefore never downgrades it), while a `start`
event overwrites it unconditionally with its `conversation_id` field, even
when that field is absent. -/
theorem conversation_id_update (st : InterpState) (d : EvData) :
    (step st ⟨"start", d⟩ = Except.ok { st with conversationId := d.conversation_id }) ∧
    (otruthy d.conversation_id = true →
      Except.map InterpState.conversationId (step st ⟨"status", d⟩) =
        Except.ok d.conversation_id ∧
      step st ⟨"done", d⟩ = Except.ok
        { st with conversationId := d.conversation_id, toolEvents := [] }) ∧
    (otruthy d.conversation_id = false →
      Except.map InterpState.conversationId (step st ⟨"status", d⟩) =
        Except.ok st.conversationId ∧
      step st ⟨"done", d⟩ = Except.ok { st with toolEvents := [] }) := by
  refine ⟨step_start st d, fun h => ⟨?_, ?_⟩, fun h => ⟨?_, ?_⟩⟩
  · rw [step_status, if_pos h]
    rfl
  · rw [step_done, if_pos h]
  · rw [step_status, if_neg (by rw [h]; exact Bool.false_ne_true)]
    rfl
  · rw [step_done, if_neg (by rw [h]; exact Bool.false_ne_true)]

/-- Witness for C9 (amended) at concrete inputs. -/
theorem conversation_id_update_witness :
    (Except.map InterpState.conversationId
        (step (initState (some "A")) ⟨"status", { conversation_id := some "B" }⟩) =
      Except.ok (some "B")) ∧
    (Except.map InterpState.conversationId
        (step (initState (some "A")) ⟨"status", { delta := some "x" }⟩) =
      Except.ok (some "A")) :=
  ⟨((conversation_id_update (initState (some "A"))
        { conversation_id := some "B" }).2.1 (by decide)).1,
   ((conversation_id_update (initState (some "A"))
        { delta := some "x" }).2.2 (by decide)).1⟩

end VoiceMode


namespace VoiceMode

lemma lastIdxOf_eq_none_iff {a : Type} (p : a → Bool) (l : List a) :
    lastIdxOf p l = none ↔ ∀ x ∈ l, p x = false := by
  unfold lastIdxOf
  rw [Option.map_eq_none']
  rw [List.findIdx?_eq_none_iff]
  constructor
  · intro h x hx
    exact h x (List.mem_reverse.mpr hx)
  · intro h x hx
    exact h x (List.mem_reverse.mp hx)

lemma lastIdxOf_spec {a : Type} (p : a → Bool) (l : List a) (j : Nat)
    (h : lastIdxOf p l = some j) :
    ∃ hj : j < l.length, p (l.get ⟨j, hj⟩) = true ∧
      ∀ k (hk : k < l.length), j < k → p (l.get ⟨k, hk⟩) = false := by
  unfold lastIdxOf at h
  rw [Option.map_eq_some'] at h
  obtain ⟨i, hi, hj⟩ := h
  obtain ⟨hlen, hp, hprev⟩ := List.findIdx?_eq_some_iff_getElem.mp hi
  rw [List.length_reverse] at hlen
  subst hj
  have hjlt : l.length - 1 - i < l.length := by omega
  refine ⟨hjlt, ?_, ?_⟩
  · have h1 : l.reverse[i] = l[l.length - 1 - i] := by
      rw [List.getElem_reverse]
    rw [List.get_eq_getElem]
    rw [← h1]
    exact hp
  · intro k hk hjk
    have hik : l.length - 1 - k < i := by omega
    have h2 := hprev (l.length - 1 - k) hik
    have hrl : l.length - 1 - k < l.reverse.length := by
      rw [List.length_reverse]; omega
    have h3 : l.reverse[l.length - 1 - k] = l[k] := by
      rw [List.getElem_reverse]
      congr 1
      omega
    rw [List.get_eq_getElem]
    rw [← h3]
    simpa using h2

end VoiceMode


namespace VoiceMode

lemma otruthy_some_iff (s : String) : otruthy (some s) = true ↔ ¬s = "" := by
  constructor
  · intro h hs
    subst hs
    exact absurd h (by decide)
  · intro h
    cases hcase : s.isEmpty with
    | false => simp [otruthy, hcase]
    | true => exact absurd ((String.isEmpty_iff s).mp hcase) h

lemma jsOr_some_of_ne (s b : String) (h : ¬s = "") : jsOr (some s) b = s := by
  have he : s.isEmpty = false := by
    cases hcase : s.isEmpty with
    | false => rfl
    | true => exact absurd ((String.isEmpty_iff s).mp hcase) h
  simp [jsOr, he]

lemma isOpenCallFor_shape (t : String) (x : ToolItem) (h : isOpenCallFor t x = true) :
    ∃ a th r res0 st0, x = ToolItem.call t a th r res0 st0 ∧ resultFalsy res0 = true := by
  cases x with
  | call t2 a th r res0 st0 =>
    simp only [isOpenCallFor, Bool.and_eq_true, beq_iff_eq] at h
    exact ⟨a, th, r, res0, st0, by rw [h.1], h.2⟩
  | thinkingPending r th => simp [isOpenCallFor] at h
  | result t2 res r => simp [isOpenCallFor] at h

lemma statusToolUpdate_result (d : EvData) (T : String) (hstatus : d.status = some "tool_result")
    (htool : d.tool = some T) (hT : ¬T = "") (l : List ToolItem) :
    statusToolUpdate d l = applyToolResult T (resultText d) (effRound d.round) l := by
  unfold statusToolUpdate
  rw [if_pos ⟨hstatus, by rw [htool]; exact (otruthy_some_iff T).mpr hT⟩,
    if_neg (by rw [hstatus]; exact fun hc => absurd hc.1 (by decide)),
    if_neg (by rw [hstatus]; exact fun hc => absurd hc.1 (by decide))]
  rw [htool, jsOr_some_of_ne T "" hT]

theorem tool_result_correlation (st : InterpState) (d : EvData) (T : String)
    (htool : d.tool = some T) (hT : ¬T = "") (hstatus : d.status = some "tool_result") :
    ((∀ x ∈ st.toolEvents, isOpenCallFor T x = false) →
      step st ⟨"status", d⟩ = Except.ok
        { fullContent := st.fullContent,
          conversationId :=
            if otruthy d.conversation_id = true then d.conversation_id
            else st.conversationId,
          toolEvents := st.toolEvents ++
            [ToolItem.result T (resultText d) (effRound d.round)] }) ∧
    ((∃ x ∈ st.toolEvents, isOpenCallFor T x = true) →
      ∃ (j : Nat) (hj : j < st.toolEvents.length),
        isOpenCallFor T (st.toolEvents.get ⟨j, hj⟩) = true ∧
        (∀ k (hk : k < st.toolEvents.length), j < k →
          isOpenCallFor T (st.toolEvents.get ⟨k, hk⟩) = false) ∧
        (∃ a th r res0 st0,
          st.toolEvents.get ⟨j, hj⟩ = ToolItem.call T a th r res0 st0 ∧
          attachResult (resultText d) (st.toolEvents.get ⟨j, hj⟩) =
            ToolItem.call T a th r (some (resultText d)) (some "complete")) ∧
        step st ⟨"status", d⟩ = Except.ok
          { fullContent := st.fullContent,
            conversationId :=
              if otruthy d.conversation_id = true then d.conversation_id
              else st.conversationId,
            toolEvents := st.toolEvents.set j
              (attachResult (resultText d) (st.toolEvents.get ⟨j, hj⟩)) }) := by
  constructor
  · intro hall
    rw [step_status, statusToolUpdate_result d T hstatus htool hT]
    unfold applyToolResult
    rw [(lastIdxOf_eq_none_iff _ _).mpr hall]
  · rintro ⟨x, hx, hpx⟩
    cases hcase : lastIdxOf (isOpenCallFor T) st.toolEvents with
    | none =>
      have := (lastIdxOf_eq_none_iff _ _).mp hcase x hx
      rw [hpx] at this
      exact absurd this (by simp)
    | some j =>
      obtain ⟨hj, hpj, hafter⟩ := lastIdxOf_spec _ _ _ hcase
      refine ⟨j, hj, hpj, hafter, ?_, ?_⟩
      · obtain ⟨a, th, r, res0, st0, hcall, hres⟩ := isOpenCallFor_shape T _ hpj
        exact ⟨a, th, r, res0, st0, hcall, by rw [hcall]; rfl⟩
      · rw [step_status, statusToolUpdate_result d T hstatus htool hT]
        unfold applyToolResult
        rw [hcase]
        dsimp only
        have hgetd : st.toolEvents.getD j (ToolItem.result T (resultText d) (effRound d.round)) =
            st.toolEvents.get ⟨j, hj⟩ := by
          rw [List.getD_eq_getElem?_getD, List.getElem?_eq_getElem hj]
          rfl
        rw [hgetd]


theorem tool_result_correlation_witness :
    step { fullContent := "", conversationId := none,
           toolEvents := [ToolItem.call "calc" none "" 1 none none,
                          ToolItem.call "calc" none "" 2 none none] }
        ⟨"status", { status := some "tool_result", tool := some "calc",
                     result := some "42" }⟩ =
      Except.ok
        { fullContent := "", conversationId := none,
          toolEvents := [ToolItem.call "calc" none "" 1 none none,
                         ToolItem.call "calc" none "" 2 (some "42") (some "complete")] } ∧
    step { fullContent := "", conversationId := none, toolEvents := [] }
        ⟨"status", { status := some "tool_result", tool := some "calc",
                     result := some "42" }⟩ =
      Except.ok
        { fullContent := "", conversationId := none,
          toolEvents := [ToolItem.result "calc" "42" 1] } := by
  constructor
  · obtain ⟨j, hj, hopen, hlast, hshape, hstep⟩ :=
      (tool_result_correlation
          { fullContent := "", conversationId := none,
            toolEvents := [ToolItem.call "calc" none "" 1 none none,
                           ToolItem.call "calc" none "" 2 none none] }
          { status := some "tool_result", tool := some "calc", result := some "42" }
          "calc" rfl (by decide) rfl).2
        ⟨ToolItem.call "calc" none "" 1 none none, by decide, by decide⟩
    have hj2 : j < 2 := by simpa using hj
    have hj1 : j = 1 := by
      by_contra hne
      have hj0 : j = 0 := by omega
      subst hj0
      have hcontra := hlast 1 (by simp) (by omega)
      exact absurd hcontra (by decide)
    subst hj1
    exact hstep.trans rfl
  · exact ((tool_result_correlation
        { fullContent := "", conversationId := none, toolEvents := [] }
        { status := some "tool_result", tool := some "calc", result := some "42" }
        "calc" rfl (by decide) rfl).1 (by simp)).trans rfl

/-- Replacing an element that fails `p` by another that fails `p` leaves
`filter p` unchanged. -/
lemma filter_set_not {a : Type} (p : a → Bool) :
    ∀ (l : List a) (i : Nat) (v : a) (hi : i < l.length),
      p (l.get ⟨i, hi⟩) = false → p v = false →
      (l.set i v).filter p = l.filter p := by
  intro l
  induction l with
  | nil => intro i v hi; simp at hi
  | cons x xs ih =>
    intro i v hi h1 h2
    cases i with
    | zero =>
      rw [List.set_cons_zero]
      rw [List.filter_cons, List.filter_cons]
      simp only [List.get] at h1
      rw [h1, h2]
      rfl
    | succ n =>
      rw [List.set_cons_succ]
      rw [List.filter_cons, List.filter_cons]
      have hn : n < xs.length := by simpa using hi
      rw [ih n v hn (by simpa using h1) h2]

/-- Removing an element that fails `p` leaves `filter p` unchanged. -/
lemma filter_eraseIdx_not {a : Type} (p : a → Bool) :
    ∀ (l : List a) (i : Nat) (hi : i < l.length),
      p (l.get ⟨i, hi⟩) = false →
      (l.eraseIdx i).filter p = l.filter p := by
  intro l
  induction l with
  | nil => intro i hi; simp at hi
  | cons x xs ih =>
    intro i hi h1
    cases i with
    | zero =>
      rw [List.eraseIdx_cons_zero, List.filter_cons]
      simp only [List.get] at h1
      rw [h1]
      rfl
    | succ n =>
      rw [List.eraseIdx_cons_succ, List.filter_cons, List.filter_cons]
      have hn : n < xs.length := by simpa using hi
      rw [ih n hn (by simpa using h1)]

/-- `findIndex` over a list whose first `p`-element sits at position
`l1.length`. -/
lemma findIdx_eq_of_split {a : Type} (p : a → Bool) (l1 l2 : List a) (x : a)
    (h1 : ∀ y ∈ l1, p y = false) (hx : p x = true) :
    (l1 ++ x :: l2).findIdx? p = some l1.length := by
  induction l1 with
  | nil =>
    rw [List.nil_append, List.findIdx?_cons, if_pos hx]
    rfl
  | cons y ys ih =>
    rw [List.cons_append, List.findIdx?_cons,
      if_neg (by rw [h1 y (List.mem_cons_self y ys)]; exact Bool.false_ne_true),
      List.findIdx?_succ,
      ih (fun z hz => h1 z (List.mem_cons_of_mem y hz))]
    rfl

/-- `getD` at the junction point of a split list. -/
lemma getD_at_split {a : Type} (l1 l2 : List a) (x dflt : a) :
    (l1 ++ x :: l2).getD l1.length dflt = x := by
  induction l1 with
  | nil => rfl
  | cons y ys ih => simpa using ih

/-- `set` at the junction point of a split list. -/
lemma set_at_split {a : Type} (l1 l2 : List a) (x v : a) :
    (l1 ++ x :: l2).set l1.length v = l1 ++ v :: l2 := by
  induction l1 with
  | nil => rfl
  | cons y ys ih =>
    rw [List.cons_append, List.length_cons, List.set_cons_succ, ih, List.cons_append]

/-- `splice(i, 1)` at the junction point of a split list. -/
lemma eraseIdx_at_split {a : Type} (l1 l2 : List a) (x : a) :
    (l1 ++ x :: l2).eraseIdx l1.length = l1 ++ l2 := by
  induction l1 with
  | nil => rfl
  | cons y ys ih =>
    rw [List.cons_append, List.length_cons, List.eraseIdx_cons_succ, ih, List.cons_append]

/-- A list whose `p`-filter is the single element `x` splits as
`l1 ++ x :: l2` with no `p`-element on either side. -/
lemma filter_single_decomp {a : Type} (p : a → Bool) (l : List a) (x : a)
    (h : l.filter p = [x]) :
    ∃ l1 l2, l = l1 ++ x :: l2 ∧ (∀ y ∈ l1, p y = false) ∧ p x = true ∧
      (∀ y ∈ l2, p y = false) := by
  obtain ⟨l1, l2, rfl, h1, h2, h3⟩ := List.filter_eq_cons_iff.mp h
  refine ⟨l1, l2, rfl, fun y hy => ?_, h2, fun y hy => ?_⟩
  · have := h1 y hy
    simpa using this
  · have := List.filter_eq_nil_iff.mp h3 y hy
    simpa using this

/-- `lastIdxOf` of a list with a unique `p`-element finds its position. -/
lemma lastIdxOf_of_split {a : Type} (p : a → Bool) (l1 l2 : List a) (x : a)
    (_h1 : ∀ y ∈ l1, p y = false) (hx : p x = true) (h2 : ∀ y ∈ l2, p y = false) :
    lastIdxOf p (l1 ++ x :: l2) = some l1.length := by
  unfold lastIdxOf
  have hrev : (l1 ++ x :: l2).reverse = l2.reverse ++ x :: l1.reverse := by
    simp
  rw [hrev, findIdx_eq_of_split p l2.reverse l1.reverse x
    (fun y hy => h2 y (List.mem_reverse.mp hy)) hx]
  rw [Option.map_some']
  congr 1
  simp only [List.length_append, List.length_cons, List.length_reverse]
  omega

/-- `getD` agrees with `get` inside the bounds. -/
lemma getD_of_lt {a : Type} (l : List a) (i : Nat) (d : a) (hi : i < l.length) :
    l.getD i d = l.get ⟨i, hi⟩ := by
  rw [List.getD_eq_getElem?_getD, List.getElem?_eq_getElem hi]
  rfl

/-- An item matching the pending-placeholder predicate is a
`thinkingPending` of that round. -/
lemma isPendingFor_shape (r : Nat) (x : ToolItem) (h : isPendingFor r x = true) :
    ∃ th, x = ToolItem.thinkingPending r th := by
  cases x with
  | thinkingPending r2 th =>
    simp only [isPendingFor, beq_iff_eq] at h
    exact ⟨th, by rw [h]⟩
  | call t a th r2 res st => simp [isPendingFor] at h
  | result t res r2 => simp [isPendingFor] at h

/-- The `tool_result` handler never touches pending placeholders. -/
lemma filter_applyToolResult (r : Nat) (t res : String) (r2 : Nat)
    (l : List ToolItem) :
    (applyToolResult t res r2 l).filter (isPendingFor r) =
      l.filter (isPendingFor r) := by
  unfold applyToolResult
  cases hcase : lastIdxOf (isOpenCallFor t) l with
  | none =>
    rw [List.filter_append]
    simp [isPendingFor]
  | some i =>
    obtain ⟨hi, hp, -⟩ := lastIdxOf_spec _ _ _ hcase
    obtain ⟨a2, th, r3, res0, st0, hshape, -⟩ := isOpenCallFor_shape t _ hp
    dsimp only
    rw [getD_of_lt _ _ _ hi, filter_set_not (isPendingFor r) l i _ hi
      (by rw [hshape]; rfl)
      (by rw [hshape]; rfl)]

/-- A `tool_call` for a different round never touches round `r`'s pending
placeholder. -/
lemma filter_applyToolCall_ne (r r2 : Nat) (hr : ¬r2 = r) (t : String)
    (args : Option String) (l : List ToolItem) :
    (applyToolCall t args r2 l).filter (isPendingFor r) =
      l.filter (isPendingFor r) := by
  unfold applyToolCall
  cases hcase : l.findIdx? (isPendingFor r2) with
  | none =>
    rw [List.filter_append]
    have hsingle : [ToolItem.call t args "" r2 none none].filter (isPendingFor r) = [] := rfl
    rw [hsingle, List.append_nil]
  | some i =>
    obtain ⟨hi, hp, -⟩ := List.findIdx?_eq_some_iff_getElem.mp hcase
    obtain ⟨th, hshape⟩ := isPendingFor_shape r2 _ hp
    rw [List.filter_append]
    have hsingle : [ToolItem.call t args
        (thinkingOf (l.getD i (ToolItem.thinkingPending r2 ""))) r2 none none].filter
          (isPendingFor r) = [] := rfl
    rw [hsingle, List.append_nil]
    rw [filter_eraseIdx_not (isPendingFor r) l i hi ?side]
    case side =>
      rw [List.get_eq_getElem, hshape]
      simp only [isPendingFor]
      rw [beq_eq_false_iff_ne]
      exact hr

/-- A `tool_thinking_delta` for a different round never touches round `r`'s
pending placeholder. -/
lemma filter_applyThinkingDelta_ne (r r2 : Nat) (hr : ¬r2 = r) (delta : String)
    (l : List ToolItem) :
    (applyThinkingDelta r2 delta l).filter (isPendingFor r) =
      l.filter (isPendingFor r) := by
  unfold applyThinkingDelta
  cases hcase : lastIdxOf (isPendingFor r2) l with
  | none =>
    rw [List.filter_append]
    have hsingle : [ToolItem.thinkingPending r2 delta].filter (isPendingFor r) = [] := by
      simp only [List.filter, isPendingFor]
      rw [beq_eq_false_iff_ne.mpr hr]
    rw [hsingle, List.append_nil]
  | some i =>
    obtain ⟨hi, hp, -⟩ := lastIdxOf_spec _ _ _ hcase
    obtain ⟨th, hshape⟩ := isPendingFor_shape r2 _ hp
    dsimp only
    rw [getD_of_lt _ _ _ hi, filter_set_not (isPendingFor r) l i _ hi ?h1 ?h2]
    case h1 =>
      rw [hshape]
      simp only [isPendingFor]
      rw [beq_eq_false_iff_ne]
      exact hr
    case h2 =>
      rw [hshape]
      simp only [addDelta, isPendingFor]
      rw [beq_eq_false_iff_ne]
      exact hr

/-- A `tool_thinking_delta` for round `r` appends its delta to the single
pending placeholder of round `r`, creating it when absent. -/
lemma filter_applyThinkingDelta_self (r : Nat) (delta : String)
    (l : List ToolItem) (acc : Option String)
    (hf : l.filter (isPendingFor r) = pendItems r acc) :
    (applyThinkingDelta r delta l).filter (isPendingFor r) =
      [ToolItem.thinkingPending r (acc.getD "" ++ delta)] := by
  unfold applyThinkingDelta
  cases acc with
  | none =>
    have hnone : lastIdxOf (isPendingFor r) l = none :=
      (lastIdxOf_eq_none_iff _ _).mpr (fun x hx => by
        have := List.filter_eq_nil_iff.mp hf x hx
        simpa using this)
    rw [hnone, List.filter_append, hf]
    rw [show pendItems r none = ([] : List ToolItem) from rfl, List.nil_append,
      List.filter_cons]
    rw [show isPendingFor r (ToolItem.thinkingPending r delta) = true from by
      simp [isPendingFor]]
    rfl
  | some a =>
    obtain ⟨l1, l2, rfl, h1, hx, h2⟩ := filter_single_decomp _ _ _ hf
    rw [lastIdxOf_of_split _ _ _ _ h1 hx h2]
    dsimp only
    rw [getD_at_split, set_at_split]
    rw [List.filter_append, List.filter_cons]
    have hl1 : l1.filter (isPendingFor r) = [] :=
      List.filter_eq_nil_iff.mpr (fun x hx2 => by rw [h1 x hx2]; exact Bool.false_ne_true)
    have hl2 : l2.filter (isPendingFor r) = [] :=
      List.filter_eq_nil_iff.mpr (fun x hx2 => by rw [h2 x hx2]; exact Bool.false_ne_true)
    rw [hl1, hl2]
    have hnew : isPendingFor r (addDelta delta (ToolItem.thinkingPending r a)) = true := by
      simp [addDelta, isPendingFor]
    rw [hnew]
    rfl

/-- Folding deltas distributes over append. -/
lemma accDeltas_append (acc : Option String) (a b : List String) :
    accDeltas acc (a ++ b) = accDeltas (accDeltas acc a) b := by
  unfold accDeltas
  rw [List.foldl_append]

/-- Folding deltas from a present buffer is plain string concatenation. -/
lemma accDeltas_some : ∀ (ds : List String) (a : String),
    accDeltas (some a) ds = some (ds.foldl (· ++ ·) a)
  | [], _ => rfl
  | d :: rest, a => accDeltas_some rest (a ++ d)

/-- Running over an appended event list runs the two parts in sequence,
short-circuiting on a thrown error. -/
lemma run_append (xs ys : List Ev) :
    ∀ st, run (xs ++ ys) st =
      match run xs st with
      | Except.ok st1 => run ys st1
      | Except.error m => Except.error m := by
  induction xs with
  | nil => intro st; rfl
  | cons e es ih =>
    intro st
    rw [List.cons_append, run, run]
    cases hstep : step st e with
    | ok st1 => exact ih st1
    | error m => rfl

/-- Effect of one `status` event on round `r`'s pending placeholder, for
an event that is not a `tool_call` for round `r`: a thinking delta for
round `r` appends its text (creating the placeholder), everything else
leaves the placeholder unchanged. -/
lemma statusToolUpdate_filter (r : Nat) (d : EvData) (l : List ToolItem)
    (acc : Option String)
    (hf : l.filter (isPendingFor r) = pendItems r acc)
    (hbc : ¬(d.status = some "tool_call" ∧ otruthy d.tool = true ∧
        effRound d.round = r)) :
    (statusToolUpdate d l).filter (isPendingFor r) =
      pendItems r (accDeltas acc
        (if d.status = some "tool_thinking_delta" ∧ otruthy d.delta = true ∧
            effRound d.round = r
          then [jsOr d.delta ""] else [])) := by
  unfold statusToolUpdate
  dsimp only
  by_cases h1 : d.status = some "tool_thinking_delta" ∧ otruthy d.delta = true
  · rw [if_pos h1,
      if_neg (show ¬(d.status = some "tool_call" ∧ otruthy d.tool = true) from
        fun hc => absurd (h1.1.symm.trans hc.1) (by decide)),
      if_neg (show ¬(d.status = some "tool_result" ∧ otruthy d.tool = true) from
        fun hc => absurd (h1.1.symm.trans hc.1) (by decide))]
    by_cases h2 : effRound d.round = r
    · rw [if_pos (show d.status = some "tool_thinking_delta" ∧
          otruthy d.delta = true ∧ effRound d.round = r from ⟨h1.1, h1.2, h2⟩)]
      rw [h2, filter_applyThinkingDelta_self r _ l acc hf]
      rfl
    · rw [if_neg (show ¬(d.status = some "tool_thinking_delta" ∧
          otruthy d.delta = true ∧ effRound d.round = r) from
          fun hc => absurd hc.2.2 h2)]
      rw [filter_applyThinkingDelta_ne r (effRound d.round) h2 _ l, hf]
      rfl
  · rw [if_neg h1,
      if_neg (show ¬(d.status = some "tool_thinking_delta" ∧
        otruthy d.delta = true ∧ effRound d.round = r) from
        fun hc => h1 ⟨hc.1, hc.2.1⟩)]
    by_cases h2 : d.status = some "tool_call" ∧ otruthy d.tool = true
    · rw [if_pos h2,
        if_neg (show ¬(d.status = some "tool_result" ∧ otruthy d.tool = true) from
          fun hc => absurd (h2.1.symm.trans hc.1) (by decide))]
      have hr : ¬effRound d.round = r := fun hr => hbc ⟨h2.1, h2.2, hr⟩
      rw [filter_applyToolCall_ne r (effRound d.round) hr _ _ l, hf]
      rfl
    · rw [if_neg h2]
      by_cases h3 : d.status = some "tool_result" ∧ otruthy d.tool = true
      · rw [if_pos h3, filter_applyToolResult, hf]
        rfl
      · rw [if_neg h3, hf]
        rfl

/-- One benign event's effect on round `r`'s pending placeholder. -/
lemma step_benign_filter (r : Nat) (e : Ev) (st : InterpState)
    (acc : Option String) (hb : benignFor r e)
    (hf : st.toolEvents.filter (isPendingFor r) = pendItems r acc) :
    ∃ st1, step st e = Except.ok st1 ∧
      st1.toolEvents.filter (isPendingFor r) =
        pendItems r (accDeltas acc (deltaContrib r e)) := by
  obtain ⟨ev, d⟩ := e
  obtain ⟨hnd, hne2, hnc⟩ := hb
  by_cases h1 : ev = "start"
  · subst h1
    refine ⟨_, step_start st d, ?_⟩
    rw [show deltaContrib r ⟨"start", d⟩ = [] from
      if_neg (fun hc => absurd hc.1 (show ¬("start" : String) = "status" by decide))]
    exact hf
  · by_cases h2 : ev = "status"
    · subst h2
      refine ⟨_, step_status st d, ?_⟩
      have hbc : ¬(d.status = some "tool_call" ∧ otruthy d.tool = true ∧
          effRound d.round = r) := fun hc => hnc ⟨rfl, hc.1, hc.2.1, hc.2.2⟩
      rw [show deltaContrib r ⟨"status", d⟩ =
          (if d.status = some "tool_thinking_delta" ∧ otruthy d.delta = true ∧
              effRound d.round = r
            then [jsOr d.delta ""] else []) from
        if_congr (and_iff_right rfl) rfl rfl]
      exact statusToolUpdate_filter r d st.toolEvents acc hf hbc
    · by_cases h3 : ev = "token"
      · subst h3
        refine ⟨_, step_token st d, ?_⟩
        rw [show deltaContrib r ⟨"token", d⟩ = [] from
          if_neg (fun hc => absurd hc.1 (show ¬("token" : String) = "status" by decide))]
        exact hf
      · refine ⟨st, step_other st ⟨ev, d⟩ h1 h2 h3 hnd hne2, ?_⟩
        rw [show deltaContrib r ⟨ev, d⟩ = [] from
          if_neg (fun hc => absurd hc.1 h2)]
        exact hf

/-- Running any benign event sequence keeps a single pending placeholder
per round, accumulating exactly the arriving deltas of that round in
order. -/
lemma run_benign_filter (r : Nat) :
    ∀ (evs : List Ev) (st : InterpState) (acc : Option String),
      (∀ e ∈ evs, benignFor r e) →
      st.toolEvents.filter (isPendingFor r) = pendItems r acc →
      ∃ st1, run evs st = Except.ok st1 ∧
        st1.toolEvents.filter (isPendingFor r) =
          pendItems r (accDeltas acc (deltasOf r evs)) := by
  intro evs
  induction evs with
  | nil =>
    intro st acc hb hf
    exact ⟨st, rfl, hf⟩
  | cons e es ih =>
    intro st acc hb hf
    obtain ⟨st1, hstep, hfil1⟩ :=
      step_benign_filter r e st acc (hb e (List.mem_cons_self e es)) hf
    obtain ⟨st2, hrun, hfil2⟩ :=
      ih st1 (accDeltas acc (deltaContrib r e))
        (fun x hx => hb x (List.mem_cons_of_mem e hx)) hfil1
    refine ⟨st2, ?_, ?_⟩
    · rw [run, hstep]
      exact hrun
    · rw [hfil2, show deltasOf r (e :: es) = deltaContrib r e ++ deltasOf r es from
        rfl, accDeltas_append]

/-- The `tool_call` handler is the only tool-event conditional that fires
on a `tool_call` status event with a truthy tool name. -/
lemma statusToolUpdate_call (d : EvData) (T : String)
    (hstatus : d.status = some "tool_call") (htool : d.tool = some T)
    (hT : ¬T = "") (l : List ToolItem) :
    statusToolUpdate d l = applyToolCall T d.arguments (effRound d.round) l := by
  unfold statusToolUpdate
  rw [if_neg (show ¬(d.status = some "tool_result" ∧ otruthy d.tool = true) from
      fun hc => absurd (hstatus.symm.trans hc.1) (by decide)),
    if_pos (show d.status = some "tool_call" ∧ otruthy d.tool = true from
      ⟨hstatus, by rw [htool]; exact (otruthy_some_iff T).mpr hT⟩),
    if_neg (show ¬(d.status = some "tool_thinking_delta" ∧ otruthy d.delta = true) from
      fun hc => absurd (hstatus.symm.trans hc.1) (by decide)),
    htool, jsOr_some_of_ne T "" hT]

/-- C2: tool-thinking buffering and transfer.  Starting with no pending
placeholder for round `r`, run any event sequence `evs` that contains
thinking deltas for round `r` (in arbitrary interleaving with other benign
events: tokens, other rounds' deltas and calls, tool results, id updates),
followed by the `tool_call` event of round `r`.  Then: (i) after `evs` the
interpreter holds exactly one pending placeholder for round `r` whose text
is the concatenation of all of round `r`'s deltas in arrival order; and
(ii) after the `tool_call` the new tool-call record (the last element of
the list) carries that concatenated thinking, and no pending placeholder
for round `r` remains — no thinking text is dropped. -/
theorem tool_thinking_transfer (st : InterpState) (evs : List Ev) (dc : EvData)
    (r : Nat) (T : String)
    (hstart : st.toolEvents.filter (isPendingFor r) = [])
    (hbenign : ∀ e ∈ evs, benignFor r e)
    (hne : ¬deltasOf r evs = [])
    (hstatus : dc.status = some "tool_call") (htool : dc.tool = some T)
    (hT : ¬T = "") (hround : effRound dc.round = r) :
    ∃ st1 st2,
      run evs st = Except.ok st1 ∧
      st1.toolEvents.filter (isPendingFor r) =
        [ToolItem.thinkingPending r ((deltasOf r evs).foldl (· ++ ·) "")] ∧
      run (evs ++ [⟨"status", dc⟩]) st = Except.ok st2 ∧
      (∃ l1, st2.toolEvents = l1 ++
          [ToolItem.call T dc.arguments ((deltasOf r evs).foldl (· ++ ·) "") r none none] ∧
        l1.filter (isPendingFor r) = []) ∧
      st2.toolEvents.filter (isPendingFor r) = [] := by
  have hfl0 : st.toolEvents.filter (isPendingFor r) = pendItems r none := by
    rw [hstart]
    rfl
  obtain ⟨st1, hrun1, hfil1⟩ := run_benign_filter r evs st none hbenign hfl0
  have haccC : accDeltas none (deltasOf r evs) =
      some ((deltasOf r evs).foldl (· ++ ·) "") := by
    cases hds : deltasOf r evs with
    | nil => exact absurd hds hne
    | cons d0 rest =>
      have h1 : accDeltas none (d0 :: rest) = accDeltas (some ("" ++ d0)) rest := rfl
      rw [h1, accDeltas_some]
      rfl
  have hfil1C : st1.toolEvents.filter (isPendingFor r) =
      [ToolItem.thinkingPending r ((deltasOf r evs).foldl (· ++ ·) "")] := by
    rw [hfil1, haccC]
    rfl
  obtain ⟨l1, l2, hsplit, hs1, hsx, hs2⟩ := filter_single_decomp _ _ _ hfil1C
  have happly : applyToolCall T dc.arguments r st1.toolEvents =
      (l1 ++ l2) ++ [ToolItem.call T dc.arguments
        ((deltasOf r evs).foldl (· ++ ·) "") r none none] := by
    rw [hsplit]
    unfold applyToolCall
    rw [findIdx_eq_of_split _ _ _ _ hs1 hsx]
    dsimp only
    rw [getD_at_split, eraseIdx_at_split]
    rfl
  have hstep2 : step st1 ⟨"status", dc⟩ = Except.ok
      { fullContent := st1.fullContent,
        conversationId :=
          if otruthy dc.conversation_id = true then dc.conversation_id
          else st1.conversationId,
        toolEvents := (l1 ++ l2) ++ [ToolItem.call T dc.arguments
          ((deltasOf r evs).foldl (· ++ ·) "") r none none] } := by
    rw [step_status, statusToolUpdate_call dc T hstatus htool hT, hround, happly]
  refine ⟨st1,
    { fullContent := st1.fullContent,
      conversationId :=
        if otruthy dc.conversation_id = true then dc.conversation_id
        else st1.conversationId,
      toolEvents := (l1 ++ l2) ++ [ToolItem.call T dc.arguments
        ((deltasOf r evs).foldl (· ++ ·) "") r none none] },
    hrun1, hfil1C, ?_, ⟨l1 ++ l2, rfl, ?_⟩, ?_⟩
  · rw [run_append, hrun1]
    show run [⟨"status", dc⟩] st1 = _
    rw [run, hstep2]
    rfl
  · rw [List.filter_append,
      List.filter_eq_nil_iff.mpr (fun x hx => by rw [hs1 x hx]; exact Bool.false_ne_true),
      List.filter_eq_nil_iff.mpr (fun x hx => by rw [hs2 x hx]; exact Bool.false_ne_true)]
    rfl
  · dsimp only
    rw [List.filter_append, List.filter_append,
      List.filter_eq_nil_iff.mpr (fun x hx => by rw [hs1 x hx]; exact Bool.false_ne_true),
      List.filter_eq_nil_iff.mpr (fun x hx => by rw [hs2 x hx]; exact Bool.false_ne_true)]
    rfl

/-- Witness for C2 at a concrete stream: two thinking deltas for round 2
(with an interleaved token event) followed by the round-2 `tool_call`. -/
theorem tool_thinking_transfer_witness :
    ∃ st1 st2,
      run [⟨"status", { status := some "tool_thinking_delta", delta := some "th", round := some 2 }⟩,
           ⟨"token", { token := some "hi" }⟩,
           ⟨"status", { status := some "tool_thinking_delta", delta := some "ink", round := some 2 }⟩] (initState none) = Except.ok st1 ∧
      st1.toolEvents.filter (isPendingFor 2) =
        [ToolItem.thinkingPending 2
          ((deltasOf 2 [⟨"status", { status := some "tool_thinking_delta", delta := some "th", round := some 2 }⟩,
            ⟨"token", { token := some "hi" }⟩,
            ⟨"status", { status := some "tool_thinking_delta", delta := some "ink", round := some 2 }⟩]).foldl (· ++ ·) "")] ∧
      run ([⟨"status", { status := some "tool_thinking_delta", delta := some "th", round := some 2 }⟩,
            ⟨"token", { token := some "hi" }⟩,
            ⟨"status", { status := some "tool_thinking_delta", delta := some "ink", round := some 2 }⟩] ++
          [⟨"status", { status := some "tool_call", tool := some "calc", round := some 2 }⟩]) (initState none) = Except.ok st2 ∧
      (∃ l1, st2.toolEvents = l1 ++
          [ToolItem.call "calc" none
            ((deltasOf 2 [⟨"status", { status := some "tool_thinking_delta", delta := some "th", round := some 2 }⟩,
              ⟨"token", { token := some "hi" }⟩,
              ⟨"status", { status := some "tool_thinking_delta", delta := some "ink", round := some 2 }⟩]).foldl (· ++ ·) "") 2 none none] ∧
        l1.filter (isPendingFor 2) = []) ∧
      st2.toolEvents.filter (isPendingFor 2) = [] :=
  tool_thinking_transfer (initState none)
    [⟨"status", { status := some "tool_thinking_delta", delta := some "th", round := some 2 }⟩,
     ⟨"token", { token := some "hi" }⟩,
     ⟨"status", { status := some "tool_thinking_delta", delta := some "ink", round := some 2 }⟩]
    { status := some "tool_call", tool := some "calc", round := some 2 }
    2 "calc" rfl (by decide) (by decide) rfl rfl (by decide) rfl

end VoiceMode

namespace Http

/-- C8 (counterexample): for the JSON error body `{"message": "oops"}`
the stated precedence (and the streaming path, which implements it) yields
`"oops"`, but the non-streaming `request` path throws
`Error(data.error || data.detail || 'Request failed')` and surfaces
`"Request failed"` — the `message` field (and the rest of the precedence)
is not consulted there. -/
theorem http_error_precedence_counterexample :
    requestErrorMessage true (some (JsonV.obj [("message", JsonV.str "oops")]))
        "Bad Request" = some "Request failed" ∧
    streamErrorMessage (some (JsonV.obj [("message", JsonV.str "oops")])) 400
        "Bad Request" = "oops" ∧
    ¬("Request failed" : String) = "oops" :=
  ⟨rfl, rfl, by decide⟩

/-- C8 (amended): the streaming endpoint's non-OK handler follows the
stated precedence exactly (`error` string, `detail` string, `detail`
array joined via `msg`/`message`/stringify, `message` string, stringified
body; body read/parse failure gives `HTTP <status>: <statusText>`); the
non-streaming `request` path instead surfaces the `String()` coercion of
`data.error || data.detail || 'Request failed'` for JSON bodies, rethrows
the parse exception when a JSON body fails to parse, and gives
`Request failed: <statusText>` for non-JSON bodies. -/
theorem http_error_precedence_amended :
    (∀ (parsed : Option JsonV) (status : Nat) (statusText : String),
      streamErrorMessage parsed status statusText =
        claimedErrorPrecedence parsed status statusText) ∧
    (∀ (data : JsonV) (statusText : String),
      requestErrorMessage true (some data) statusText =
        some (jsToString (jsOrV (getField data "error")
          (jsOrV (getField data "detail") (JsonV.str "Request failed"))))) ∧
    (∀ statusText : String, requestErrorMessage true none statusText = none) ∧
    (∀ (parsed : Option JsonV) (statusText : String),
      requestErrorMessage false parsed statusText =
        some ("Request failed: " ++ statusText)) :=
  ⟨fun _ _ _ => rfl, fun _ _ => rfl, fun _ => rfl, fun _ _ => rfl⟩

end Http

namespace VoiceChat

/-- The scheduler emits one start time per buffer. -/
lemma schedList_length : ∀ (arrivals : List (ℚ × ℚ)) (next : ℚ),
    (schedList arrivals next).length = arrivals.length := by
  intro arrivals
  induction arrivals with
  | nil => intro next; rfl
  | cons a rest ih =>
    intro next
    obtain ⟨now, dur⟩ := a
    rw [schedList, List.length_cons, List.length_cons, ih]

/-- C4: gap-free, non-overlapping playback scheduling.  (i) For any buffer
sequence, consecutive computed start times satisfy
`start (i+1) ≥ start i + d i`, with equality whenever the next buffer does
not arrive late (its arrival time is at most the cursor).  (ii) The first
`ready` message initialises the cursor to the audio context's current
time — never to zero.  (iii) An `audio` message arriving before `ready`
schedules nothing, so the zero-initialised cursor is never used; once the
context exists, each buffer starts at `max(now, cursor)` and the cursor
advances past it. -/
theorem playback_scheduling :
    (∀ (arrivals : List (ℚ × ℚ)) (next0 : ℚ) (i : Nat)
        (h : i + 1 < arrivals.length),
      (schedList arrivals next0).get ⟨i + 1, by rw [schedList_length]; exact h⟩ ≥
        (schedList arrivals next0).get ⟨i, by rw [schedList_length]; omega⟩ +
          (arrivals.get ⟨i, by omega⟩).2 ∧
      ((arrivals.get ⟨i + 1, h⟩).1 ≤
          (schedList arrivals next0).get ⟨i, by rw [schedList_length]; omega⟩ +
            (arrivals.get ⟨i, by omega⟩).2 →
        (schedList arrivals next0).get ⟨i + 1, by rw [schedList_length]; exact h⟩ =
          (schedList arrivals next0).get ⟨i, by rw [schedList_length]; omega⟩ +
            (arrivals.get ⟨i, by omega⟩).2)) ∧
    (∀ t : ℚ, handleMsg initAudioState (Msg.ready t) =
      ({ ctxReady := true, nextPlayTime := t }, none)) ∧
    (∀ (st : AudioState) (now dur : ℚ), st.ctxReady = false →
      handleMsg st (Msg.audio now dur) = (st, none)) ∧
    (∀ (st : AudioState) (now dur : ℚ), st.ctxReady = true →
      handleMsg st (Msg.audio now dur) =
        ({ st with nextPlayTime := max now st.nextPlayTime + dur },
          some (max now st.nextPlayTime))) := by
  refine ⟨?_, fun t => rfl, ?_, ?_⟩
  · intro arrivals
    induction arrivals with
    | nil => intro next0 i h; simp at h
    | cons a rest ih =>
      intro next0 i h
      obtain ⟨now, dur⟩ := a
      cases i with
      | zero =>
        cases rest with
        | nil => simp at h
        | cons b rest2 =>
          obtain ⟨now2, dur2⟩ := b
          constructor
          · show max now2 (max now next0 + dur) ≥ max now next0 + dur
            exact le_max_right _ _
          · intro hle
            show max now2 (max now next0 + dur) = max now next0 + dur
            exact max_eq_right hle
      | succ n =>
        have h2 : n + 1 < rest.length := by simpa using h
        exact ih (playAudioSched now next0 dur).2 n h2
  · intro st now dur hc
    rw [handleMsg, if_neg (by rw [hc]; exact Bool.false_ne_true)]
  · intro st now dur hc
    rw [handleMsg, if_pos hc]
    rfl

/-- Witness for C4 at a concrete schedule: two buffers, the second not
late; and a concrete pre-`ready` audio message that is skipped. -/
theorem playback_scheduling_witness :
    ((schedList [((0 : ℚ), (2 : ℚ)), (1, 3)] 5).get ⟨1, by rw [schedList_length]; decide⟩ ≥
      (schedList [((0 : ℚ), (2 : ℚ)), (1, 3)] 5).get ⟨0, by rw [schedList_length]; decide⟩ +
        (([((0 : ℚ), (2 : ℚ)), (1, 3)]).get ⟨0, by decide⟩).2) ∧
    handleMsg initAudioState (Msg.audio 3 1) = (initAudioState, none) :=
  ⟨(playback_scheduling.1 [((0 : ℚ), (2 : ℚ)), (1, 3)] 5 0 (by decide)).1,
   playback_scheduling.2.2.1 initAudioState 3 1 rfl⟩

/-- `ToInt16` is the identity on values already in the signed 16-bit
range. -/
lemma toInt16_of_range (n : ℤ) (h1 : -32768 ≤ n) (h2 : n ≤ 32767) :
    toInt16 n = n := by
  unfold toInt16
  dsimp only
  split_ifs with h <;> omega

/-- Transporting an in-range sample as a little-endian byte pair and
reassembling it is the identity. -/
lemma bytes_id (v : ℤ) (h1 : -32768 ≤ v) (h2 : v ≤ 32767) :
    fromBytes (toBytes v).1 (toBytes v).2 = v := by
  unfold fromBytes toBytes toInt16
  dsimp only
  split_ifs with h <;> omega

/-- The clamped, scaled, truncated sample always fits the signed 16-bit
range: clamping bounds the scale factor's image. -/
lemma encode_raw_range (s : ℚ) :
    -32768 ≤ jsTrunc (if max (-1) (min 1 s) < 0 then max (-1) (min 1 s) * 0x8000
        else max (-1) (min 1 s) * 0x7FFF) ∧
    jsTrunc (if max (-1) (min 1 s) < 0 then max (-1) (min 1 s) * 0x8000
        else max (-1) (min 1 s) * 0x7FFF) ≤ 32767 := by
  have hc1 : (-1 : ℚ) ≤ max (-1) (min 1 s) := le_max_left _ _
  have hc2 : max (-1) (min 1 s) ≤ 1 := max_le (by norm_num) (min_le_left _ _)
  by_cases hneg : max (-1) (min 1 s) < 0
  · rw [if_pos hneg]
    unfold jsTrunc
    rw [if_neg (by
      intro hge
      have : max (-1) (min 1 s) * 0x8000 < 0 :=
        mul_neg_of_neg_of_pos hneg (by norm_num)
      linarith)]
    constructor
    · have hle : ((-32768 : ℤ) : ℚ) ≤ max (-1) (min 1 s) * 0x8000 := by
        push_cast
        nlinarith
      calc (-32768 : ℤ) = ⌈((-32768 : ℤ) : ℚ)⌉ := (Int.ceil_intCast _).symm
        _ ≤ ⌈max (-1) (min 1 s) * 0x8000⌉ := Int.ceil_le_ceil hle
    · have hle : max (-1) (min 1 s) * 0x8000 ≤ ((32767 : ℤ) : ℚ) := by
        push_cast
        nlinarith
      exact Int.ceil_le.mpr hle
  · rw [if_neg hneg]
    push_neg at hneg
    unfold jsTrunc
    rw [if_pos (by positivity)]
    constructor
    · have hle : ((-32768 : ℤ) : ℚ) ≤ max (-1) (min 1 s) * 0x7FFF := by
        push_cast
        nlinarith
      calc (-32768 : ℤ) = ⌊((-32768 : ℤ) : ℚ)⌋ := (Int.floor_intCast _).symm
        _ ≤ ⌊max (-1) (min 1 s) * 0x7FFF⌋ := Int.floor_le_floor hle
    · have hle : max (-1) (min 1 s) * 0x7FFF ≤ ((32767 : ℤ) : ℚ) := by
        push_cast
        nlinarith
      calc ⌊max (-1) (min 1 s) * 0x7FFF⌋ ≤ ⌊((32767 : ℤ) : ℚ)⌋ := Int.floor_le_floor hle
        _ = 32767 := Int.floor_intCast _

/-- The wire round trip reduces to dividing the truncated scaled sample by
32768. -/
lemma roundTrip_eq (s : ℚ) :
    roundTrip s = (jsTrunc (if max (-1) (min 1 s) < 0 then
      max (-1) (min 1 s) * 0x8000 else max (-1) (min 1 s) * 0x7FFF) : ℚ) / 32768 := by
  obtain ⟨hr1, hr2⟩ := encode_raw_range s
  unfold roundTrip decodeSample encodeSample
  rw [toInt16_of_range _ hr1 hr2, bytes_id _ hr1 hr2]

/-- C5 (amended): the PCM16 round trip reproduces a sample of `[-1, 1]`
within *two* quantization steps, `|roundTrip s - s| ≤ 2/65536 = 1/16384`.
The one-step bound of the claim fails near `+1` because the encoder scales
non-negative samples by `0x7FFF` while the decoder divides by `0x8000`. -/
theorem pcm_roundtrip_error_bound (s : ℚ) (h1 : -1 ≤ s) (h2 : s ≤ 1) :
    |roundTrip s - s| ≤ 1 / 16384 := by
  have hclamp : max (-1) (min 1 s) = s := by
    rw [min_eq_right h2, max_eq_right h1]
  rw [roundTrip_eq, hclamp]
  by_cases hneg : s < 0
  · rw [if_pos hneg]
    unfold jsTrunc
    rw [if_neg (by
      intro hge
      have hlt : s * 0x8000 < 0 := mul_neg_of_neg_of_pos hneg (by norm_num)
      linarith)]
    have hu : s * 32768 ≤ (⌈s * 32768⌉ : ℚ) := Int.le_ceil _
    have hl : (⌈s * 32768⌉ : ℚ) < s * 32768 + 1 := Int.ceil_lt_add_one _
    rw [abs_of_nonneg (by linarith)]
    linarith
  · rw [if_neg hneg]
    push_neg at hneg
    unfold jsTrunc
    rw [if_pos (mul_nonneg hneg (by norm_num))]
    have hu : (⌊s * 32767⌋ : ℚ) ≤ s * 32767 := Int.floor_le _
    have hl : s * 32767 < (⌊s * 32767⌋ : ℚ) + 1 := Int.lt_floor_add_one _
    rw [abs_of_nonpos (by linarith)]
    rw [neg_sub]
    linarith

/-- C5 (counterexample): the one-step bound fails.  The float sample
`65533/65534 ∈ [-1, 1]` encodes (scale by `0x7FFF`, truncate) to `32766`
and decodes (divide by `32768`) to `32766/32768`, an error strictly larger
than one quantization step `1/32768`. -/
theorem pcm_roundtrip_counterexample :
    -1 ≤ (65533 / 65534 : ℚ) ∧ (65533 / 65534 : ℚ) ≤ 1 ∧
    1 / 32768 < |roundTrip (65533 / 65534 : ℚ) - 65533 / 65534| := by
  refine ⟨by norm_num, by norm_num, ?_⟩
  have hclamp : max (-1) (min 1 (65533 / 65534 : ℚ)) = 65533 / 65534 := by
    rw [min_eq_right (by norm_num), max_eq_right (by norm_num)]
  have hfloor : ⌊(65533 / 65534 : ℚ) * 32767⌋ = 32766 := by
    rw [Int.floor_eq_iff]
    constructor
    · push_cast
      norm_num
    · push_cast
      norm_num
  have htrunc : jsTrunc ((65533 / 65534 : ℚ) * 32767) = 32766 := by
    unfold jsTrunc
    rw [if_pos (by positivity), hfloor]
  rw [roundTrip_eq, hclamp, if_neg (by norm_num), htrunc]
  rw [abs_sub_comm, abs_of_nonneg (by norm_num)]
  norm_num

/-- Witness for C5 (amended) at the concrete sample `1`: the hypotheses
`-1 ≤ 1 ≤ 1` hold and the round-trip error is within two steps. -/
theorem pcm_roundtrip_error_bound_witness :
    |roundTrip 1 - 1| ≤ 1 / 16384 :=
  pcm_roundtrip_error_bound 1 (by decide) (by decide)

end VoiceChat

end UltraChat
